import Mathlib

/-!
Verification of the KEMD dataset-assembly pipeline
(`Kaggle/erc/datasets.py`, `erc/constants.py`).

Python floats are modelled as exact rationals (`ℚ`), numpy / torch 1-D
arrays as `List ℚ`, masks as `List ℕ`, and pandas tables as lists of rows.
Fallible Python operations (e.g. `list.remove`, a mode that hits no branch)
are modelled with `Option`.
-/

namespace ERC

/-! ## `erc/constants.py` -/

/-- `RunMode` enum from `erc/constants.py`. -/
inductive RunMode where
  | train
  | valid
  | test
deriving DecidableEq, Repr

/-- `emotion2idx` from `erc/constants.py`: the emotion-name → index mapping,
as an association list in the dict's insertion order. -/
def emotion2idx : List (String × ℕ) :=
  [("surprise", 0), ("fear", 1), ("angry", 2), ("neutral", 3),
   ("happy", 4), ("sad", 5), ("disgust", 6)]

/-- The keys of `emotion2idx`, in order (`list(emotion2idx.keys())`). -/
def emotionKeys : List String := emotion2idx.map Prod.fst

/-- `dict.get(key, default)`: first value bound to `key`, if any. -/
def dictGet (l : List (String × ℕ)) (key : String) : Option ℕ :=
  (l.find? (fun p => p.1 = key)).map Prod.snd

/-- `KEMDBase.str2num`: `emotion2idx.get(key, -1)` (datasets.py line 308). -/
def str2num (key : String) : ℤ :=
  match dictGet emotion2idx key with
  | some v => (v : ℤ)
  | none => -1

/-- `gender2idx` from `erc/constants.py`. -/
def gender2idx : List (String × ℕ) := [("M", 0), ("F", 1)]

/-- `KEMDBase.gender2num`: `gender2idx.get(key, -1)` (datasets.py line 312). -/
def gender2num (key : String) : ℤ :=
  match dictGet gender2idx key with
  | some v => (v : ℤ)
  | none => -1

/-- Python `list.remove(x)`: drops the first occurrence of `x`, or raises
`ValueError` (modelled as `none`) when `x` is absent. -/
def pyListRemove (l : List String) (x : String) : Option (List String) :=
  if x ∈ l then some (l.erase x) else none

/-- `KEMDBase.__init__` lines 84–85: `emo_col = list(emotion2idx.keys());
emo_col.remove("disqust")`.  This is the multilabel per-category column list. -/
def emoColMultilabel : Option (List String) :=
  pyListRemove emotionKeys "disqust"

/-! ## `KEMDBase.pad_value` (datasets.py lines 155–172) -/

/-- `KEMDBase.pad_value`: truncate `arr` to `maxLength`, or right-pad with
`pad`; the mask starts as `torch.ones(max_length)` and, in the padding
branch, `mask[null_size:] = 0` zeroes every position from index
`null_size = maxLength - arr.length` on. -/
def pad_value (arr : List ℚ) (maxLength : ℕ) (pad : ℚ) : List ℚ × List ℕ :=
  if maxLength ≤ arr.length then
    (arr.take maxLength, List.replicate maxLength 1)
  else
    let nullSize := maxLength - arr.length
    (arr ++ List.replicate nullSize pad,
     List.replicate nullSize 1 ++ List.replicate (maxLength - nullSize) 0)

/-! ## `KEMDBase.vectorize` (datasets.py lines 303–306) -/

/-- `KEMDBase.vectorize`: `ev / ev.sum()`, elementwise division of the vote
counts by their total. -/
def vectorize (emotion : List ℚ) : List ℚ :=
  emotion.map (fun x => x / emotion.sum)

/-! ## Fold partitioning (datasets.py lines 279–293, `erc/preprocess.get_folds`) -/

/-- First session of fold `f`.  Part of the model of `get_folds` below:
the first `k - n % k` folds hold `n / k` sessions each, the remaining
`n % k` folds hold one extra session. -/
def fold_start (n k f : ℕ) : ℕ :=
  1 + f * (n / k) + (f - (k - n % k))

/-- Number of sessions in fold `f` (see `fold_start`). -/
def fold_size (n k f : ℕ) : ℕ :=
  n / k + (if k - n % k ≤ f then 1 else 0)

/-- Modelled from the spec: `get_folds` lives in `erc/preprocess.py`, which is
not among the sources; only its call site in `KEMDBase.split_folds` is.
Following the spec's words, it splits the sessions `1..n` into `k`
contiguous, equal-as-possible ranges ordered by session number, with fold 0
covering sessions `1..n/k` (the docstring of `KEMDBase.__init__` gives
fold 0 = sessions 1–4, …, fold 4 = sessions 17–20 for `n = 20, k = 5`). -/
def get_folds (n k f : ℕ) : Finset ℕ :=
  Finset.Ico (fold_start n k f) (fold_start n k f + fold_size n k f)

/-- Python `str.split(sep)` for a one-character separator, over the
character list of the string. -/
def splitOnChar (c : Char) : List Char → List (List Char)
  | [] => [[]]
  | x :: xs =>
      let rest := splitOnChar c xs
      if x = c then [] :: rest
      else (x :: rest.headD []) :: rest.tail

/-- Python `int(...)` on a string of decimal digits; `none` models the
`ValueError` on an empty or non-numeric string. -/
def parseDigits (l : List Char) : Option ℕ :=
  if l = [] then none
  else l.foldl (fun acc? d =>
    match acc? with
    | none => none
    | some acc => if d.isDigit then some (acc * 10 + (d.toNat - 48)) else none)
    (some 0)

/-- Session number of a row: `segment_id.split("_")[0][-2:]` parsed as an
integer (datasets.py lines 288–289).  A non-numeric suffix is modelled as 0
(Python would raise there). -/
def sessionOf (sid : String) : ℕ :=
  let field := (splitOnChar '_' sid.data).headD []
  let last2 := field.drop (field.length - 2)
  (parseDigits last2).getD 0

/-- `KEMDBase.split_folds` (datasets.py lines 279–293): with `foldNum = -1`
return the table unfiltered; otherwise keep the rows whose session number is
outside fold `foldNum`'s range in TRAIN mode and inside it otherwise. -/
def split_folds (numSessions numFolds : ℕ) (table : List String)
    (foldNum : ℤ) (mode : RunMode) : List String :=
  if foldNum = -1 then table
  else
    let foldRange := get_folds numSessions numFolds foldNum.toNat
    match mode with
    | RunMode.train => table.filter (fun sid => decide (sessionOf sid ∉ foldRange))
    | _ => table.filter (fun sid => decide (sessionOf sid ∈ foldRange))

/-! ## Hard-vote tie-breaking (datasets.py lines 217–250) -/

/-- `e.max()` over a vote-share array (0 for the empty array, where numpy
would raise). -/
def vmax : List ℚ → ℚ
  | [] => 0
  | x :: xs => xs.foldl max x

/-- `mask.nonzero()[0]` for the boolean mask `m = (e == e.max())`
(datasets.py lines 222 and 240): the ascending list of indices attaining
the maximum vote share. -/
def tiedIndices (e : List ℚ) : List ℕ :=
  (List.range e.length).filter (fun i => decide (e.getD i 0 = vmax e))

/-- `e.argmax()` (datasets.py line 227): the first index attaining the
maximum. -/
def argmaxFirst (e : List ℚ) : ℕ := (tiedIndices e).headD 0

/-- `np.argmin` over the keyed elements of a list: the first element whose
key is minimal (`np.array(total_dist).argmin()`, datasets.py line 250). -/
def argminFirst (key : ℕ → ℚ) : List ℕ → ℕ
  | [] => 0
  | i :: rest =>
      if rest = [] ∨ key i ≤ key (argminFirst key rest) then i
      else argminFirst key rest

/-- Squared Euclidean distance from the example's `(valence, arousal)` point
to a centroid.  `np.linalg.norm(regress - center, ord=2)` (datasets.py
line 248) computes the square root of this; `argmin` is invariant under the
strictly monotone square root, so the comparison key stays in `ℚ`. -/
def dist2 (v a : ℚ) (c : ℚ × ℚ) : ℚ := (v - c.1) ^ 2 + (a - c.2) ^ 2

/-- `KEMDBase._find_deuce_label` (datasets.py lines 230–250): among the tied
indices, the first whose centroid is nearest to `(v, a)`.  The per-corpus
centroid tables (`emotion_va_19_dict` / `emotion_va_20_dict`, imported from
`erc/constants.py` but not present in it) are abstracted into the
`centroids` parameter mapping a category index to its fixed centroid. -/
def find_deuce_label (centroids : ℕ → ℚ × ℚ) (v a : ℚ)
    (maskIdx : List ℕ) : ℕ :=
  argminFirst (fun i => dist2 v a (centroids i)) maskIdx

/-- `KEMDBase.get_hard_vote` (datasets.py lines 217–228): the argmax index
when `len(e[m]) <= 1`, otherwise the centroid-distance tie-break over the
tied indices. -/
def get_hard_vote (centroids : ℕ → ℚ × ℚ) (e : List ℚ) (v a : ℚ) : ℕ :=
  if 1 < (tiedIndices e).length then
    find_deuce_label centroids v a (tiedIndices e)
  else argmaxFirst e

/-! ## `KEMDBase.__init__` / `__len__` length control (datasets.py 95–105) -/

/-- Python 3 `round` on an exact rational: round half to even.
(The float literal `0.05` of the source is modelled as the exact
rational `1/20`.) -/
def pyRound (q : ℚ) : ℤ :=
  let f := ⌊q⌋
  let r := q - f
  if r < 1/2 then f
  else if 1/2 < r then f + 1
  else if f % 2 = 0 then f else f + 1

/-- `KEMDBase.__init__` lines 95–102: the stored `self.num_data`.  A given
integer in `range(0, len(df))` is kept; any other integer is replaced by
`round(0.05 * len(df))`; `None` stays `None`. -/
def storedNumData (numData : Option ℤ) (dfLen : ℕ) : Option ℤ :=
  match numData with
  | some nd =>
      if 0 ≤ nd ∧ nd < (dfLen : ℤ) then some nd
      else some (pyRound ((dfLen : ℚ) / 20))
  | none => none

/-- `KEMDBase.__len__` lines 104–105:
`len(self.df) if not self.num_data else len(self.df[:self.num_data])`.
The falsy test `not self.num_data` treats both `None` and `0` as "no
limit"; a positive stored count is clamped by slicing. -/
def kemdLen (numData : Option ℤ) (dfLen : ℕ) : ℕ :=
  Option.elim (storedNumData numData dfLen) dfLen
    (fun nd => if nd = 0 then dfLen else min nd.toNat dfLen)

/-! ## `AIHubDialog.sampling_with_ratio` (datasets.py lines 659–677) -/

/-- `train_num = int(total_len * train_ratio)` (datasets.py line 665):
truncation equals the floor for the nonnegative values that occur here. -/
def trainNum (total_len : ℕ) (trainRatio : ℚ) : ℕ :=
  (⌊(total_len : ℚ) * trainRatio⌋).toNat

/-- `AIHubDialog.sampling_with_ratio` (datasets.py lines 659–677).  The call
`random.sample(total_idx, train_num)` is modelled by the `draw` parameter,
which theorems constrain to a valid sample (distinct members of the
population of length `trainNum`).  `list(set(total_idx) - set(train_idx))`
is modelled as the order-preserving filter of the population (the stated
properties are order-insensitive).  A mode other than `"train"`/`"valid"`
reaches `return index_list` with `index_list` unbound, a Python
`UnboundLocalError`, modelled as `none`. -/
def sampling_with_ratio (total_len : ℕ) (draw : List ℕ)
    (mode : String) : Option (List ℕ) :=
  let total_idx := List.range total_len
  let train_idx := draw
  let valid_idx := total_idx.filter (fun i => decide (i ∉ draw))
  if mode = "train" then some train_idx
  else if mode = "valid" then some valid_idx
  else none

/-! ## `KEMDBase.__getitem__` (datasets.py lines 107–153) -/

/-- A Python value stored in the example dict. -/
inductive PyVal where
  | str (s : String)
  | int (z : ℤ)
  | rat (q : ℚ)
  | rlist (l : List ℚ)
  | nlist (l : List ℕ)
  | pyNone
deriving DecidableEq, Repr

/-- One row of the normalized table, with the fields `__getitem__` reads:
`segment_id`, the single-label `emotion` string, the multilabel
per-category vote shares, `valence`, `arousal`, and the three
`(start, end)` bio-signal pairs. -/
structure Row where
  segment_id : String
  emotion : String
  votes : List ℚ
  valence : ℚ
  arousal : ℚ
  bio : List (ℚ × ℚ)
deriving DecidableEq, Repr

/-- `KEMDBase.__getitem__` (datasets.py lines 107–153), in the
`tokenizer_name=None` configuration used by `KEMDy19Dataset` /
`KEMDy20Dataset` (so `get_txt` returns the raw string and no mask).
External effects are parameters: `parseSegmentId` is the corpus-specific
`parse_segment_id` returning (session, speaker, gender, wav-path prefix),
`pathExists` is `os.path.exists`, `loadWav` is `torchaudio.load`,
`readTxt` reads and joins the transcript lines, and `centroids` feeds
`get_hard_vote`.  The result is the data dict (as an ordered key/value
list) together with the list of emitted log warnings. -/
def KEMD_getitem
    (parseSegmentId : String → String × String × String × String)
    (pathExists : String → Bool)
    (loadWav : String → ℤ × List ℚ)
    (readTxt : String → String)
    (centroids : ℕ → ℚ × ℚ)
    (maxLengthWav : ℕ)
    (returnBio multilabel : Bool)
    (row : Row) : List (String × PyVal) × List String :=
  let segment_id := row.segment_id
  let data := [("segment_id", PyVal.str segment_id)]
  let gender := (parseSegmentId segment_id).2.2.1
  let wav_prefix := (parseSegmentId segment_id).2.2.2
  let wav_path := wav_prefix ++ "/" ++ segment_id ++ ".wav"
  let txt_path := wav_prefix ++ "/" ++ segment_id ++ ".txt"
  if !(pathExists wav_path) || !(pathExists txt_path) then
    (data, ["Error occurs -> " ++ wav_prefix])
  else
    let loaded := loadWav wav_path
    let padded :=
      if maxLengthWav ≠ 0 then
        let pm := pad_value loaded.2 maxLengthWav 0
        (pm.1, PyVal.nlist pm.2)
      else (loaded.2, PyVal.pyNone)
    let data := data ++
      [("sampling_rate", PyVal.int loaded.1),
       ("wav", PyVal.rlist padded.1),
       ("wav_mask", padded.2),
       ("txt", PyVal.str (readTxt txt_path)),
       ("txt_mask", PyVal.pyNone)]
    let data := data ++
      (if returnBio then
        [("ecg", PyVal.rat (((row.bio.getD 0 (0, 0)).1 + (row.bio.getD 0 (0, 0)).2) / 2)),
         ("e4-eda", PyVal.rat (((row.bio.getD 1 (0, 0)).1 + (row.bio.getD 1 (0, 0)).2) / 2)),
         ("e4-temp", PyVal.rat (((row.bio.getD 2 (0, 0)).1 + (row.bio.getD 2 (0, 0)).2) / 2))]
      else [])
    let data := data ++
      [("emotion",
        if multilabel then PyVal.rlist (vectorize row.votes)
        else PyVal.int (str2num row.emotion)),
       ("valence", PyVal.rat row.valence),
       ("arousal", PyVal.rat row.arousal)]
    let data := data ++
      (if multilabel then
        [("vote_emotion", PyVal.int
          (get_hard_vote centroids (vectorize row.votes) row.valence row.arousal))]
      else [])
    let data := data ++ [("gender", PyVal.int (gender2num gender))]
    (data, [])

/-! ## Theorems -/

/-- Helper: sum of an elementwise-divided list. -/
theorem list_sum_map_div (l : List ℚ) (d : ℚ) :
    (l.map (fun x => x / d)).sum = l.sum / d := by
  induction l with
  | nil => simp
  | cons x xs ih => simp [ih, add_div]

/-- C9: if the vote counts sum to a positive total, `vectorize` divides each
entry by that total and the result sums to 1. -/
theorem vectorize_sums_to_one (emotion : List ℚ) (h : 0 < emotion.sum) :
    vectorize emotion = emotion.map (fun x => x / emotion.sum) ∧
    (vectorize emotion).sum = 1 := by
  refine ⟨rfl, ?_⟩
  rw [vectorize, list_sum_map_div]
  exact div_self (ne_of_gt h)

/-- C9 witness: concrete vote counts `[1, 3]` sum to `4 > 0` and vectorize
to a vector summing to 1. -/
theorem vectorize_sums_to_one_witness :
    (0 : ℚ) < ([1, 3] : List ℚ).sum ∧ (vectorize [1, 3]).sum = 1 :=
  ⟨by norm_num, (vectorize_sums_to_one [1, 3] (by norm_num)).2⟩

/-- Helper: `dictGet` on `emotion2idx` misses exactly the non-keys. -/
theorem dictGet_emotion2idx_eq_none {k : String} (hk : k ∉ emotionKeys) :
    dictGet emotion2idx k = none := by
  rw [dictGet, List.find?_eq_none.mpr, Option.map_none']
  intro p hp hpk
  exact hk (List.mem_map.mpr ⟨p, hp, of_decide_eq_true hpk⟩)

/-- Helper: `dictGet` on `emotion2idx` finds every bound key. -/
theorem dictGet_emotion2idx_eq_some {k : String} {v : ℕ}
    (hkv : (k, v) ∈ emotion2idx) : dictGet emotion2idx k = some v := by
  fin_cases hkv <;> rfl

/-- C8: `str2num` maps every string that is not a vocabulary key to the
sentinel `-1`, and every vocabulary key to its index. -/
theorem str2num_spec (k : String) :
    (k ∉ emotionKeys → str2num k = -1) ∧
    (∀ v : ℕ, (k, v) ∈ emotion2idx → str2num k = (v : ℤ)) := by
  constructor
  · intro hk
    rw [str2num, dictGet_emotion2idx_eq_none hk]
  · intro v hv
    rw [str2num, dictGet_emotion2idx_eq_some hv]

/-- C8 witness: the unrecognized string `"zzz"` maps to `-1` and the key
`"happy"` maps to its index `4`. -/
theorem str2num_spec_witness :
    str2num "zzz" = -1 ∧ str2num "happy" = 4 :=
  ⟨(str2num_spec "zzz").1 (by decide),
   (str2num_spec "happy").2 4 (by decide)⟩

/-- C1: evaluating `pad_value` at the failing input: an input of length 1
padded to length 4 gets the mask `[1, 1, 1, 0]` — ones over the first
`maxLength - len` positions — not `[1, 0, 0, 0]`, the mask with zeros
exactly at the padded tail positions that the specification describes. -/
theorem pad_value_mask_bug :
    pad_value [(5 : ℚ)] 4 0 = ([5, 0, 0, 0], [1, 1, 1, 0]) ∧
    ([1, 1, 1, 0] : List ℕ) ≠ [1, 0, 0, 0] := by
  constructor
  · rfl
  · decide

/-- Helper: each fold starts where the previous one ends. -/
theorem fold_start_succ (n k f : ℕ) :
    fold_start n k (f + 1) = fold_start n k f + fold_size n k f := by
  unfold fold_start fold_size
  rcases le_or_lt (k - n % k) f with h | h
  · rw [if_pos h, Nat.succ_mul]
    omega
  · rw [if_neg (not_le.mpr h), Nat.succ_mul]
    omega

/-- Helper: fold 0 starts at session 1. -/
theorem fold_start_zero (n k : ℕ) : fold_start n k 0 = 1 := by
  simp [fold_start]

/-- Helper: every fold start is at least 1. -/
theorem fold_start_pos (n k f : ℕ) : 1 ≤ fold_start n k f := by
  unfold fold_start
  omega

/-- Helper: the fold after the last one starts at session `n + 1`. -/
theorem fold_start_last (n k : ℕ) (hk : 0 < k) : fold_start n k k = n + 1 := by
  have hr : n % k < k := Nat.mod_lt _ hk
  have hd : k * (n / k) + n % k = n := Nat.div_add_mod n k
  unfold fold_start
  generalize n / k = q at hd ⊢
  generalize n % k = r at hd hr ⊢
  omega

/-- Helper: fold starts are monotone. -/
theorem fold_start_mono (n k : ℕ) : Monotone (fold_start n k) :=
  monotone_nat_of_le_succ fun f => by
    rw [fold_start_succ]
    exact Nat.le_add_right _ _

/-- Helper: the first `m` folds cover exactly sessions `1..fold_start m - 1`. -/
theorem get_folds_union_aux (n k m : ℕ) :
    (Finset.range m).biUnion (get_folds n k) = Finset.Ico 1 (fold_start n k m) := by
  induction m with
  | zero => simp [fold_start_zero]
  | succ m ih =>
      rw [Finset.range_succ, Finset.biUnion_insert, ih, get_folds,
          Finset.union_comm,
          Finset.Ico_union_Ico_eq_Ico (fold_start_pos n k m)
            (Nat.le_add_right _ _), fold_start_succ]

/-- Helper: sessions in an earlier fold are smaller than those in a later. -/
theorem get_folds_ordered (n k : ℕ) {f g : ℕ} (hfg : f < g) :
    ∀ x ∈ get_folds n k f, ∀ y ∈ get_folds n k g, x < y := by
  intro x hx y hy
  rw [get_folds, Finset.mem_Ico] at hx hy
  have h1 : fold_start n k (f + 1) ≤ fold_start n k g := fold_start_mono n k hfg
  rw [fold_start_succ] at h1
  omega

/-- Helper: distinct folds are disjoint. -/
theorem get_folds_disjoint (n k : ℕ) {f g : ℕ} (hfg : f ≠ g) :
    Disjoint (get_folds n k f) (get_folds n k g) := by
  rcases lt_or_gt_of_ne hfg with h | h
  · exact Finset.disjoint_left.mpr fun x hx hx' =>
      lt_irrefl x (get_folds_ordered n k h x hx x hx')
  · exact Finset.disjoint_left.mpr fun x hx hx' =>
      lt_irrefl x (get_folds_ordered n k h x hx' x hx)

/-- C3 (amended: at least one fold): the folds are pairwise disjoint; their
union is exactly sessions `1..n`; each fold is the contiguous range
starting at `fold_start`; folds are ordered by session number; fold sizes
differ by at most one; and fold 0 covers the first `n / k` sessions. -/
theorem get_folds_spec (n k : ℕ) (hk : 1 ≤ k) :
    (∀ f g, f ≠ g → Disjoint (get_folds n k f) (get_folds n k g)) ∧
    (Finset.range k).biUnion (get_folds n k) = Finset.Icc 1 n ∧
    (∀ f, get_folds n k f
        = Finset.Ico (fold_start n k f) (fold_start n k f + fold_size n k f)) ∧
    (∀ f g, f < g → ∀ x ∈ get_folds n k f, ∀ y ∈ get_folds n k g, x < y) ∧
    (∀ f g, fold_size n k f ≤ fold_size n k g + 1) ∧
    get_folds n k 0 = Finset.Icc 1 (n / k) := by
  refine ⟨fun f g => get_folds_disjoint n k, ?_, fun f => rfl,
    fun f g h => get_folds_ordered n k h, ?_, ?_⟩
  · rw [get_folds_union_aux, fold_start_last n k hk, Nat.Ico_succ_right]
  · intro f g
    unfold fold_size
    split <;> split <;> omega
  · have hr : n % k < k := Nat.mod_lt _ hk
    rw [get_folds, fold_start_zero, fold_size, if_neg (by omega)]
    have h1 : 1 + (n / k + 0) = n / k + 1 := by omega
    rw [h1, Nat.Ico_succ_right]

/-- C3 witness: for `n = 20, k = 5` the folds are disjoint, cover sessions
1–20, and fold 0 is sessions 1–4, as the constructor docstring lists. -/
theorem get_folds_spec_witness :
    (Finset.range 5).biUnion (get_folds 20 5) = Finset.Icc 1 20 ∧
    get_folds 20 5 0 = Finset.Icc 1 4 :=
  ⟨(get_folds_spec 20 5 (by decide)).2.1,
   (get_folds_spec 20 5 (by decide)).2.2.2.2.2⟩

/-- C3 counterexample: with zero folds no session ranges are produced, so
their union is not `1..num_sessions` — the claim fails at
`num_sessions = 1, num_folds = 0`. -/
theorem get_folds_cover_fails_at_zero_folds :
    ¬ (Finset.range 0).biUnion (get_folds 1 0) = Finset.Icc 1 1 := by
  decide

/-- C2: for every table and fold `f ≥ 0`, TRAIN mode keeps exactly the rows
whose session number is outside fold `f`'s range and every other mode keeps
exactly the rows whose session number is inside it; each row of the table
lands in exactly one of the TRAIN and VALID results (membership-wise and by
count); and fold `-1` returns the whole table unfiltered for every mode. -/
theorem split_folds_spec (n k : ℕ) (table : List String) (f : ℕ) (mode : RunMode) :
    split_folds n k table (f : ℤ) RunMode.train
        = table.filter (fun sid => decide (sessionOf sid ∉ get_folds n k f)) ∧
    (mode ≠ RunMode.train →
      split_folds n k table (f : ℤ) mode
        = table.filter (fun sid => decide (sessionOf sid ∈ get_folds n k f))) ∧
    (∀ sid ∈ table,
      (sid ∈ split_folds n k table (f : ℤ) RunMode.train ∧
        sid ∉ split_folds n k table (f : ℤ) RunMode.valid) ∨
      (sid ∉ split_folds n k table (f : ℤ) RunMode.train ∧
        sid ∈ split_folds n k table (f : ℤ) RunMode.valid)) ∧
    (split_folds n k table (f : ℤ) RunMode.train).length
        + (split_folds n k table (f : ℤ) RunMode.valid).length = table.length ∧
    split_folds n k table (-1) mode = table := by
  have hne : ¬ ((f : ℤ) = -1) := by omega
  have htr : split_folds n k table (f : ℤ) RunMode.train
      = table.filter (fun sid => decide (sessionOf sid ∉ get_folds n k f)) := by
    rw [split_folds, if_neg hne]
    simp [Int.toNat_natCast]
  have hva : split_folds n k table (f : ℤ) RunMode.valid
      = table.filter (fun sid => decide (sessionOf sid ∈ get_folds n k f)) := by
    rw [split_folds, if_neg hne]
    simp [Int.toNat_natCast]
  refine ⟨htr, ?_, ?_, ?_, ?_⟩
  · intro hmode
    rw [split_folds, if_neg hne]
    cases mode with
    | train => exact absurd rfl hmode
    | valid => simp [Int.toNat_natCast]
    | test => simp [Int.toNat_natCast]
  · intro sid hsid
    by_cases hin : sessionOf sid ∈ get_folds n k f
    · right
      constructor
      · rw [htr]
        simp [List.mem_filter, hin]
      · rw [hva]
        simp [List.mem_filter, hsid, hin]
    · left
      constructor
      · rw [htr]
        simp [List.mem_filter, hsid, hin]
      · rw [hva]
        simp [List.mem_filter, hin]
  · rw [htr, hva,
      show (fun sid => decide (sessionOf sid ∈ get_folds n k f))
          = (fun sid => !(decide (sessionOf sid ∉ get_folds n k f))) from
        funext fun sid => by simp]
    exact (List.length_eq_length_filter_add _).symm
  · rw [split_folds, if_pos rfl]

/-- Helper: `pyRound` is at most the floor plus one. -/
theorem pyRound_le_floor_add_one (q : ℚ) : pyRound q ≤ ⌊q⌋ + 1 := by
  simp only [pyRound]
  split_ifs <;> omega

/-- Helper: small tables round their 5% down to zero. -/
theorem pyRound_five_percent_eq_zero {dfLen : ℕ} (h : dfLen ≤ 9) :
    pyRound ((dfLen : ℚ) / 20) = 0 := by
  have hfl : ⌊(dfLen : ℚ) / 20⌋ = 0 := by
    rw [Int.floor_eq_zero_iff]
    constructor
    · positivity
    · rw [div_lt_one (by norm_num)]
      have : (dfLen : ℚ) ≤ 9 := by exact_mod_cast h
      linarith
  have hlt : (dfLen : ℚ) / 20 < 1 / 2 := by
    have : (dfLen : ℚ) ≤ 9 := by exact_mod_cast h
    linarith
  simp only [pyRound, hfl, Int.cast_zero, sub_zero]
  rw [if_pos hlt]

/-- Helper: the rounded 5% of the table never exceeds the table length. -/
theorem pyRound_five_percent_le (dfLen : ℕ) :
    pyRound ((dfLen : ℚ) / 20) ≤ (dfLen : ℤ) := by
  rcases le_or_lt dfLen 9 with h | h
  · rw [pyRound_five_percent_eq_zero h]
    omega
  · have h10 : (10 : ℚ) ≤ (dfLen : ℚ) := by exact_mod_cast h
    have h1 : (⌊(dfLen : ℚ) / 20⌋ : ℚ) ≤ (dfLen : ℚ) / 20 := Int.floor_le _
    have h2 : (dfLen : ℚ) / 20 ≤ (dfLen : ℚ) - 1 := by linarith
    have h3 : ⌊(dfLen : ℚ) / 20⌋ ≤ (dfLen : ℤ) - 1 := by
      have h4 : ((⌊(dfLen : ℚ) / 20⌋ : ℤ) : ℚ) ≤ (((dfLen : ℤ) - 1 : ℤ) : ℚ) := by
        push_cast
        linarith
      exact_mod_cast h4
    have := pyRound_le_floor_add_one ((dfLen : ℚ) / 20)
    omega

/-- C7 (amended): with no prefix count the length is the full partition
size; a prefix count between 1 and the size (exclusive) is honoured
exactly; a requested count of 0 is swallowed by the code's falsiness test
and yields the full size; any other integer yields `round(size / 20)`
when that is nonzero and the full size when it rounds to 0. -/
theorem kemdLen_spec (nd : ℤ) (dfLen : ℕ) :
    kemdLen none dfLen = dfLen ∧
    (1 ≤ nd → nd < (dfLen : ℤ) → kemdLen (some nd) dfLen = nd.toNat) ∧
    kemdLen (some 0) dfLen = dfLen ∧
    (¬ (0 ≤ nd ∧ nd < (dfLen : ℤ)) →
      kemdLen (some nd) dfLen =
        if pyRound ((dfLen : ℚ) / 20) = 0 then dfLen
        else (pyRound ((dfLen : ℚ) / 20)).toNat) := by
  refine ⟨rfl, ?_, ?_, ?_⟩
  · intro h1 h2
    have hst : storedNumData (some nd) dfLen = some nd := by
      simp only [storedNumData]
      rw [if_pos ⟨by omega, h2⟩]
    simp only [kemdLen, hst, Option.elim]
    rw [if_neg (by omega : ¬ nd = 0)]
    exact Nat.min_eq_left (by omega)
  · by_cases h : (0 : ℤ) < (dfLen : ℤ)
    · have hst : storedNumData (some 0) dfLen = some 0 := by
        simp only [storedNumData]
        rw [if_pos ⟨le_refl 0, h⟩]
      simp only [kemdLen, hst, Option.elim, eq_self_iff_true, if_true]
    · have hd0 : dfLen = 0 := by omega
      subst hd0
      have hz : pyRound (((0 : ℕ) : ℚ) / 20) = 0 :=
        pyRound_five_percent_eq_zero (by omega)
      have hst : storedNumData (some 0) 0 = some 0 := by
        simp only [storedNumData]
        rw [if_neg (by omega), hz]
      simp only [kemdLen, hst, Option.elim, eq_self_iff_true, if_true]
  · intro h
    have hst : storedNumData (some nd) dfLen
        = some (pyRound ((dfLen : ℚ) / 20)) := by
      simp only [storedNumData]
      rw [if_neg h]
    by_cases hr : pyRound ((dfLen : ℚ) / 20) = 0
    · simp [kemdLen, hst, Option.elim, hr]
    · simp only [kemdLen, hst, Option.elim]
      rw [if_neg hr, if_neg hr]
      exact Nat.min_eq_left (by have := pyRound_five_percent_le dfLen; omega)

/-- C7 witness: a prefix count of 3 on a 10-row partition reports length 3. -/
theorem kemdLen_spec_witness : kemdLen (some 3) 10 = (3 : ℤ).toNat :=
  (kemdLen_spec 3 10).2.1 (by decide) (by decide)

/-- C7 counterexample: a prefix count of 0 on a 10-row partition reports the
full length 10, not the 0 the claim requires. -/
theorem kemdLen_zero_counterexample :
    kemdLen (some 0) 10 = 10 ∧ (10 : ℕ) ≠ 0 := by
  constructor
  · decide
  · decide

/-- Helper: `argminFirst` returns an element of a non-empty list. -/
theorem argminFirst_mem (key : ℕ → ℚ) :
    ∀ l : List ℕ, l ≠ [] → argminFirst key l ∈ l := by
  intro l
  induction l with
  | nil => intro h; exact absurd rfl h
  | cons i rest ih =>
      intro _
      simp only [argminFirst]
      split_ifs with hg
      · exact List.mem_cons_self i rest
      · push_neg at hg
        exact List.mem_cons_of_mem i (ih hg.1)

/-- Helper: `argminFirst` minimises the key over the list. -/
theorem argminFirst_le (key : ℕ → ℚ) :
    ∀ l : List ℕ, ∀ j ∈ l, key (argminFirst key l) ≤ key j := by
  intro l
  induction l with
  | nil => intro j hj; exact absurd hj (List.not_mem_nil j)
  | cons i rest ih =>
      intro j hj
      simp only [argminFirst]
      split_ifs with hg
      · rcases List.mem_cons.mp hj with rfl | hjr
        · exact le_refl _
        · rcases hg with he | hle
          · rw [he] at hjr
            exact absurd hjr (List.not_mem_nil j)
          · exact le_trans hle (ih j hjr)
      · push_neg at hg
        rcases List.mem_cons.mp hj with rfl | hjr
        · exact hg.2.le
        · exact ih j hjr

/-- Helper: on a strictly sorted list, `argminFirst` picks the smallest
element among those with minimal key (ties go to the first = smallest). -/
theorem argminFirst_first (key : ℕ → ℚ) :
    ∀ l : List ℕ, List.Sorted (· < ·) l →
      ∀ j ∈ l, key j ≤ key (argminFirst key l) → argminFirst key l ≤ j := by
  intro l
  induction l with
  | nil => intro _ j hj; exact absurd hj (List.not_mem_nil j)
  | cons i rest ih =>
      intro hs j hj
      simp only [argminFirst]
      split_ifs with hg
      · intro _
        rcases List.mem_cons.mp hj with rfl | hjr
        · exact le_refl _
        · exact (List.rel_of_sorted_cons hs j hjr).le
      · push_neg at hg
        intro hkey
        rcases List.mem_cons.mp hj with rfl | hjr
        · exact absurd hkey (not_le.mpr hg.2)
        · exact ih hs.of_cons j hjr hkey

/-- Helper: the tied indices are listed in strictly increasing order. -/
theorem tiedIndices_sorted (e : List ℚ) :
    List.Sorted (· < ·) (tiedIndices e) :=
  List.Pairwise.filter _ (List.pairwise_lt_range e.length)

/-- C4: when exactly one category attains the maximum vote share
`get_hard_vote` returns its index; when several tie, it returns a tied
index whose centroid has minimal (squared, hence also Euclidean) distance
to the `(valence, arousal)` point, and among equidistant tied indices the
smallest; the function is pure, hence deterministic and free of I/O. -/
theorem get_hard_vote_spec (c : ℕ → ℚ × ℚ) (e : List ℚ) (v a : ℚ) :
    (∀ i, tiedIndices e = [i] → get_hard_vote c e v a = i) ∧
    (1 < (tiedIndices e).length →
      get_hard_vote c e v a ∈ tiedIndices e ∧
      (∀ j ∈ tiedIndices e,
        dist2 v a (c (get_hard_vote c e v a)) ≤ dist2 v a (c j)) ∧
      (∀ j ∈ tiedIndices e,
        dist2 v a (c j) = dist2 v a (c (get_hard_vote c e v a)) →
          get_hard_vote c e v a ≤ j)) := by
  constructor
  · intro i hi
    rw [get_hard_vote, if_neg (by simp [hi])]
    rw [argmaxFirst, hi]
    rfl
  · intro hlen
    have hne : tiedIndices e ≠ [] := by
      intro h0
      rw [h0] at hlen
      simp at hlen
    have hval : get_hard_vote c e v a
        = argminFirst (fun i => dist2 v a (c i)) (tiedIndices e) := by
      rw [get_hard_vote, if_pos hlen, find_deuce_label]
    rw [hval]
    exact ⟨argminFirst_mem (fun i => dist2 v a (c i)) (tiedIndices e) hne,
      fun j hj => argminFirst_le (fun i => dist2 v a (c i)) (tiedIndices e) j hj,
      fun j hj hk =>
        argminFirst_first (fun i => dist2 v a (c i)) (tiedIndices e)
          (tiedIndices_sorted e) j hj (le_of_eq hk)⟩

/-- C4 witness: votes `[1/2, 1/2]` tie on categories 0 and 1; the
tie-break returns one of the tied indices. -/
theorem get_hard_vote_spec_witness :
    get_hard_vote (fun i => ((i : ℚ), 0)) [1/2, 1/2] 0 0
      ∈ tiedIndices [1/2, 1/2] :=
  ((get_hard_vote_spec (fun i => ((i : ℚ), 0)) [1/2, 1/2] 0 0).2
    (by norm_num [tiedIndices, vmax, List.range_succ, List.filter])).1

/-- C6 (amended): the emotion vocabulary is a bijection between the 7
category names and the indices 0–6, but the multilabel per-category column
list is built by removing the key `"disqust"`, which is not a vocabulary
key (the key is spelled `"disgust"`), so `list.remove` raises `ValueError`
and no column list is produced. -/
theorem emotion_vocab_spec :
    emotion2idx.map Prod.snd = List.range 7 ∧
    emotionKeys.Nodup ∧
    emotionKeys.length = 7 ∧
    emoColMultilabel = none := by
  refine ⟨by decide, by decide, by decide, by decide⟩

/-- C6 counterexample: there is no multilabel column list at all (the
removal of the absent key `"disqust"` fails), so in particular no column
list containing one column per vocabulary category exists. -/
theorem emoColMultilabel_counterexample :
    ¬ ∃ cols, emoColMultilabel = some cols ∧
        ∀ k ∈ emotionKeys, k ∈ cols := by
  rintro ⟨cols, hc, -⟩
  rw [(by decide : emoColMultilabel = none)] at hc
  exact Option.noConfusion hc

/-- C10: for every population size and every valid random draw of
`trainNum` distinct indices, train mode returns exactly the draw (of size
`int(0.8 * total_len)`), valid mode returns a duplicate-free list disjoint
from it, and together they cover exactly the index set `{0, …, n-1}`. -/
theorem sampling_with_ratio_spec (n : ℕ) (draw : List ℕ)
    (hnodup : draw.Nodup)
    (hlen : draw.length = trainNum n (4 / 5))
    (hmem : ∀ x ∈ draw, x ∈ List.range n) :
    sampling_with_ratio n draw "train" = some draw ∧
    draw.Nodup ∧ draw.length = (⌊(n : ℚ) * (4 / 5)⌋).toNat ∧
    ∃ v, sampling_with_ratio n draw "valid" = some v ∧
      v.Nodup ∧
      (∀ x ∈ v, x ∉ draw) ∧
      (∀ x, x ∈ List.range n ↔ x ∈ draw ∨ x ∈ v) := by
  refine ⟨rfl, hnodup, hlen,
    (List.range n).filter (fun i => decide (i ∉ draw)), rfl, ?_, ?_, ?_⟩
  · exact (List.nodup_range n).filter _
  · intro x hx
    exact of_decide_eq_true (List.mem_filter.mp hx).2
  · intro x
    constructor
    · intro hxr
      by_cases hx : x ∈ draw
      · exact Or.inl hx
      · exact Or.inr (List.mem_filter.mpr ⟨hxr, decide_eq_true hx⟩)
    · rintro (hx | hx)
      · exact hmem x hx
      · exact (List.mem_filter.mp hx).1

/-- C10 witness: population `{0,…,4}` with the concrete draw `[0, 2, 3, 1]`
of size `int(0.8 * 5) = 4`: train mode returns the draw. -/
theorem sampling_with_ratio_spec_witness :
    sampling_with_ratio 5 [0, 2, 3, 1] "train" = some [0, 2, 3, 1] :=
  (sampling_with_ratio_spec 5 [0, 2, 3, 1] (by decide)
    (by norm_num [trainNum]; decide) (by decide)).1

/-- C5: whenever the waveform file or the transcript file derived from the
row's `segment_id` does not exist, `__getitem__` returns a dict containing
only the `segment_id` key, emits one warning log line, and returns normally
(the embedding is a total function; no exception path is taken). -/
theorem getitem_missing_file_spec
    (parseSegmentId : String → String × String × String × String)
    (pathExists : String → Bool)
    (loadWav : String → ℤ × List ℚ)
    (readTxt : String → String)
    (centroids : ℕ → ℚ × ℚ)
    (maxLengthWav : ℕ)
    (returnBio multilabel : Bool)
    (row : Row)
    (hmiss :
      pathExists ((parseSegmentId row.segment_id).2.2.2 ++ "/"
          ++ row.segment_id ++ ".wav") = false ∨
      pathExists ((parseSegmentId row.segment_id).2.2.2 ++ "/"
          ++ row.segment_id ++ ".txt") = false) :
    KEMD_getitem parseSegmentId pathExists loadWav readTxt centroids
        maxLengthWav returnBio multilabel row
      = ([("segment_id", PyVal.str row.segment_id)],
         ["Error occurs -> " ++ (parseSegmentId row.segment_id).2.2.2]) := by
  rw [KEMD_getitem]
  rcases hmiss with h | h <;> simp [h]

/-- C5 witness: a concrete record whose files are all reported missing
yields the dict with only its `segment_id` and the warning line. -/
theorem getitem_missing_file_witness :
    KEMD_getitem (fun _ => ("Sess01", "M001", "M", "wavdir"))
        (fun _ => false) (fun _ => (16000, [])) (fun _ => "")
        (fun _ => (0, 0)) 4 false false
        ⟨"Sess01_script01_M001", "neutral", [], 0, 0, []⟩
      = ([("segment_id", PyVal.str "Sess01_script01_M001")],
         ["Error occurs -> wavdir"]) :=
  getitem_missing_file_spec (fun _ => ("Sess01", "M001", "M", "wavdir"))
    (fun _ => false) (fun _ => (16000, [])) (fun _ => "")
    (fun _ => (0, 0)) 4 false false
    ⟨"Sess01_script01_M001", "neutral", [], 0, 0, []⟩ (Or.inl rfl)

/-- C2 witness: with 20 sessions, 5 folds and validation fold 4
(sessions 17–20), VALID mode keeps exactly the session-20 row. -/
theorem split_folds_spec_witness :
    split_folds 20 5 ["Sess01_script01_M001", "Sess20_impro03_F002"]
        ((4 : ℕ) : ℤ) RunMode.valid = ["Sess20_impro03_F002"] :=
  ((split_folds_spec 20 5 ["Sess01_script01_M001", "Sess20_impro03_F002"]
      4 RunMode.valid).2.1 (by decide)).trans (by decide)

end ERC
